import Mathlib

/-!
Verification model of the r7kamura/router Go package (src/router.go).

Go strings are modelled as `List Char`; all inputs exercised here are ASCII,
where this coincides with Go's byte strings.  The regular expressions built by
`compilePattern` are modelled in two faithful stages, mirroring the source:

* `compilePattern` produces the literal regex source text exactly as the Go
  function assembles it (split on `/`, per-segment placeholder detection with
  `:(\w+)`, replacement by `([^#?/]+)`, rejoining with `\/` and anchoring with
  `^ … $`), together with the ordered key list;
* `parseRegexElems` is a partial model of Go's regexp compiler, covering the
  fragment of regex syntax that such sources use: escaped punctuation, the
  capturing wildcard `([^#?/]+)`, `.`, and plain literal characters.  A source
  using constructs outside this fragment parses to `none` and is outside the
  model.

`reMatch` implements anchored matching with the leftmost-first (greedy,
backtracking) semantics Go's regexp package uses for submatch extraction.
-/

namespace GoRouter

/-- Convert a literal to the character-list representation of Go strings. -/
def chars (s : String) : List Char := s.toList

/-- Word characters of Go's regexp `\w` class: ASCII letters, digits, `_`. -/
def isWordChar (c : Char) : Bool := c.isAlphanum || c = '_'

/-- Leftmost match of the Go pattern `:(\w+)` in a segment, returning the
captured identifier, as `placeholderMatcher.FindStringSubmatch` does. -/
def findPlaceholder : List Char → Option (List Char)
  | [] => none
  | c :: rest =>
      if c = ':' ∧ rest.takeWhile isWordChar ≠ [] then some (rest.takeWhile isWordChar)
      else findPlaceholder rest

/-- The replacement text `([^#?/]+)` used for each placeholder occurrence. -/
def captureGroupText : List Char := ("([^#?/]+)").toList

/-- Model of `placeholderMatcher.ReplaceAllString(segment, "([^#?/]+)")`: every
(leftmost, non-overlapping) occurrence of `:(\w+)` is replaced.  The scan
resumes after the matched identifier; since identifier characters are word
characters and never start a match, the recursion may process them and drop
their literal output instead of dropping them from the input (this keeps the
recursion structural; the two readings agree). -/
def replacePlaceholders : List Char → List Char
  | [] => []
  | c :: rest =>
      if c = ':' ∧ rest.takeWhile isWordChar ≠ [] then
        captureGroupText ++ (replacePlaceholders rest).drop (rest.takeWhile isWordChar).length
      else
        c :: replacePlaceholders rest

/-- Number of `:(\w+)` occurrences (placeholders) in one segment.  As in
`replacePlaceholders`, rescanning the identifier is harmless: its word
characters never start a `:(\w+)` match. -/
def countPlaceholders : List Char → Nat
  | [] => 0
  | c :: rest =>
      if c = ':' ∧ rest.takeWhile isWordChar ≠ [] then
        1 + countPlaceholders rest
      else
        countPlaceholders rest

/-- Total number of placeholder occurrences in a whole pattern. -/
def patternPlaceholderCount (pattern : List Char) : Nat :=
  ((pattern.splitOn '/').map countPlaceholders).sum

/-- Result of `compilePattern`: the regex source text and the key list. -/
structure CompiledPattern where
  regexSource : List Char
  keys : List (List Char)
deriving DecidableEq, Repr

/-- Per-segment step of `compilePattern`: a segment with a placeholder is
rewritten with capture groups and contributes the first identifier as a key;
any other segment is kept as literal text. -/
def compileSegment (seg : List Char) : List Char × List (List Char) :=
  match findPlaceholder seg with
  | some ident => (replacePlaceholders seg, [ident])
  | none => (seg, [])

/-- Model of `compilePattern` in src/router.go: split on `/`, process each
segment, rejoin with `\/` and anchor with `^ … $`. -/
def compilePattern (pattern : List Char) : CompiledPattern :=
  let processed := (pattern.splitOn '/').map compileSegment
  { regexSource := ('^' :: ['\\', '/'].intercalate (processed.map Prod.fst)) ++ ['$']
    keys := (processed.map Prod.snd).flatten }

/-- Elements of the anchored regexes that `compilePattern` produces: a literal
character, the `.` wildcard, or the capturing wildcard `([^#?/]+)`. -/
inductive RElem where
  | lit (c : Char)
  | dot
  | capture
deriving DecidableEq, Repr

/-- Characters with a special meaning in Go regex syntax (outside classes). -/
def regexMetaChars : List Char :=
  ['.', '+', '*', '?', '(', ')', '|', '[', ']', '\x7b', '\x7d', '^', '$', '\\']

/-- A character that denotes itself in a regex. -/
def isPlainChar (c : Char) : Bool := !(regexMetaChars.contains c)

/-- Partial model of Go's regexp compiler on the fragment used by compiled
patterns: `\c` (escaped punctuation) is the literal `c`, `([^#?/]+)` is the
capturing wildcard, `.` is the any-character wildcard, a plain character is a
literal.  Anything else is outside the modelled fragment and yields `none`. -/
def parseRegexElems : List Char → Option (List RElem)
  | [] => some []
  | '\\' :: [] => none
  | '\\' :: c2 :: rest2 =>
      if isWordChar c2 then none
      else (parseRegexElems rest2).map (fun es => RElem.lit c2 :: es)
  | '(' :: '[' :: '^' :: '#' :: '?' :: '/' :: ']' :: '+' :: ')' :: rest2 =>
      (parseRegexElems rest2).map (fun es => RElem.capture :: es)
  | '(' :: _ => none
  | '.' :: rest => (parseRegexElems rest).map (fun es => RElem.dot :: es)
  | c :: rest =>
      if regexMetaChars.contains c then none
      else (parseRegexElems rest).map (fun es => RElem.lit c :: es)

/-- Parse a full regex source of the form `^ … $` into its element list. -/
def parseAnchored (s : List Char) : Option (List RElem) :=
  match s with
  | '^' :: rest =>
      if rest.getLast? = some '$' then parseRegexElems rest.dropLast else none
  | _ => none

/-- Characters the capturing wildcard `[^#?/]+` accepts. -/
def capOk (c : Char) : Bool := !(c = '#' || c = '?' || c = '/')

/-- Greedy backtracking for one capture group: try to let the group consume
`n` characters, then `n - 1`, …, down to `1`; `k` matches the rest of the
input against the remaining elements. -/
def tryCapture (k : List Char → Option (List (List Char))) (xs : List Char) :
    Nat → Option (List (List Char))
  | 0 => none
  | n + 1 =>
      match k (xs.drop (n + 1)) with
      | some gs => some (xs.take (n + 1) :: gs)
      | none => tryCapture k xs n

/-- Anchored matching of an element list against an input, returning the list
of captured substrings on success (Go's leftmost-first, greedy semantics). -/
def reMatch : List RElem → List Char → Option (List (List Char))
  | [], xs => if xs.isEmpty then some [] else none
  | RElem.lit c :: rs, xs =>
      match xs with
      | [] => none
      | x :: xs2 => if x = c then reMatch rs xs2 else none
  | RElem.dot :: rs, xs =>
      match xs with
      | [] => none
      | x :: xs2 => if x = '\n' then none else reMatch rs xs2
  | RElem.capture :: rs, xs =>
      tryCapture (fun ys => reMatch rs ys) xs (xs.takeWhile capOk).length

/-- The matcher of a `Route`: either an anchored element list compiled from a
pattern, or the precompiled `anythingMatcher` (the empty regexp, which matches
every string and captures nothing) used by `NewEmptyRoute`. -/
inductive Matcher where
  | anchored (elems : List RElem)
  | anything
deriving DecidableEq, Repr

/-- Find the submatch of a path, as `Pattern.FindStringSubmatch` restricted to
the capture groups: `none` is no match, `some gs` a match with captures `gs`.
The empty regexp matches (an empty prefix of) every string with no group. -/
def Matcher.subMatch : Matcher → List Char → Option (List (List Char))
  | Matcher.anchored es, path => reMatch es path
  | Matcher.anything, _ => some []

/-- Model of the `Route` struct: compiled pattern, ordered key list, and an
opaque reference standing for the `http.Handler`. -/
structure Route where
  matcher : Matcher
  keys : List (List Char)
  handler : Nat
deriving DecidableEq, Repr

/-- Model of `NewRoute`: compile the pattern and pair it with the handler.
`none` when the produced regex source is outside the modelled fragment. -/
def mkRoute (pattern : List Char) (handler : Nat) : Option Route :=
  (parseAnchored (compilePattern pattern).regexSource).map
    (fun es => { matcher := Matcher.anchored es, keys := (compilePattern pattern).keys,
                 handler := handler })

/-- Model of `NewEmptyRoute`: the match-anything matcher and no keys. -/
def NewEmptyRoute (handler : Nat) : Route :=
  { matcher := Matcher.anything, keys := [], handler := handler }

/-- Model of `Route.Match`: does the compiled pattern match the path? -/
def Route.Match (route : Route) (path : List Char) : Bool :=
  (route.matcher.subMatch path).isSome

/-- Model of Go's `url.Values`: a key-to-values mapping, rendered as an
association list with pairwise distinct keys (insertion-ordered; Go's map has
no order, and every observation made here is order-independent). -/
abbrev Values := List (List Char × List (List Char))

/-- Map lookup `vs[k]`, with the empty list for an absent key. -/
def getVals : Values → List Char → List (List Char)
  | [], _ => []
  | kv :: rest, k => if kv.1 = k then kv.2 else getVals rest k

/-- Map assignment `vs[k] = newVals`: replace the values of `k` in place, or
add the key. -/
def setVals : Values → List Char → List (List Char) → Values
  | [], k, newVals => [(k, newVals)]
  | kv :: rest, k, newVals =>
      if kv.1 = k then (k, newVals) :: rest else kv :: setVals rest k newVals

/-- The Go statement `params[key] = append(params[key], param)`. -/
def addValue (vs : Values) (k v : List Char) : Values :=
  setVals vs k (getVals vs k ++ [v])

/-- The loop body of `extractParams`: bind `Keys[i]` to the i-th capture.
`none` models the index-out-of-range panic when `i` exceeds the key list. -/
def extractLoop (keys : List (List Char)) : Nat → List (List Char) → Values → Option Values
  | _, [], acc => some acc
  | i, g :: gs, acc =>
      match keys[i]? with
      | none => none
      | some k => extractLoop keys (i + 1) gs (addValue acc k g)

/-- Model of `Route.extractParams`: iterate over `FindStringSubmatch(path)[1:]`.
`none` models a runtime panic: on a non-matching path `FindStringSubmatch`
returns nil and slicing `nil[1:]` panics; on a matching path the loop panics
when a capture index has no corresponding key. -/
def Route.extractParams (route : Route) (path : List Char) : Option Values :=
  match route.matcher.subMatch path with
  | none => none
  | some gs => extractLoop route.keys 0 gs []

/-- Value of a hexadecimal digit, as `url.ishex`/`unhex`. -/
def hexDigitVal (c : Char) : Option Nat :=
  if '0' ≤ c ∧ c ≤ '9' then some (c.toNat - '0'.toNat)
  else if 'a' ≤ c ∧ c ≤ 'f' then some (c.toNat - 'a'.toNat + 10)
  else if 'A' ≤ c ∧ c ≤ 'F' then some (c.toNat - 'A'.toNat + 10)
  else none

/-- Model of `url.QueryUnescape`: `%XX` decodes a byte (identified with a
character, as for ASCII), `+` decodes to a space, anything else is literal;
`none` on a malformed percent escape. -/
def queryUnescape : List Char → Option (List Char)
  | [] => some []
  | c :: rest =>
      if c = '%' then
        match rest with
        | c1 :: c2 :: rest2 =>
            match hexDigitVal c1, hexDigitVal c2 with
            | some h1, some h2 =>
                (queryUnescape rest2).map (fun s => Char.ofNat (h1 * 16 + h2) :: s)
            | _, _ => none
        | _ => none
      else if c = '+' then (queryUnescape rest).map (fun s => ' ' :: s)
      else (queryUnescape rest).map (fun s => c :: s)

/-- Separators between query pairs (`url.ParseQuery` splits on `&` and `;`). -/
def isPairSep (c : Char) : Bool := c = '&' || c = ';'

/-- One iteration of the `url.ParseQuery` loop: an empty piece is skipped, the
key is the part before the first `=`, the value the part after it, both
query-unescaped; a piece whose unescaping fails is skipped (`URL.Query`
discards the error). -/
def parsePair (acc : Values) (pair : List Char) : Values :=
  if pair = [] then acc
  else
    let key := pair.takeWhile (fun c => c ≠ '=')
    let value := if key.length = pair.length then [] else pair.drop (key.length + 1)
    match queryUnescape key, queryUnescape value with
    | some k, some v => addValue acc k v
    | _, _ => acc

/-- Model of `request.URL.Query()`: parse the raw query into `url.Values`. -/
def parseQuery (rawQuery : List Char) : Values :=
  (rawQuery.splitOnP isPairSep).foldl parsePair []

/-- Characters `url.QueryEscape` leaves unescaped (plus the space, which
becomes `+`). -/
def noEscapeNeeded (c : Char) : Bool :=
  c.isAlphanum || c = '-' || c = '_' || c = '.' || c = '~'

/-- UTF-8 bytes of a character, as Go strings store it. -/
def utf8Bytes (c : Char) : List Nat :=
  let n := c.toNat
  if n < 128 then [n]
  else if n < 2048 then [192 + n / 64, 128 + n % 64]
  else if n < 65536 then [224 + n / 4096, 128 + n / 64 % 64, 128 + n % 64]
  else [240 + n / 262144, 128 + n / 4096 % 64, 128 + n / 64 % 64, 128 + n % 64]

/-- Upper-case hexadecimal digit, as `url.escape` emits. -/
def upperHexDigit (n : Nat) : Char :=
  if n < 10 then Char.ofNat ('0'.toNat + n) else Char.ofNat ('A'.toNat + n - 10)

/-- Model of `url.QueryEscape`. -/
def queryEscape (s : List Char) : List Char :=
  s.flatMap (fun c =>
    if c = ' ' then ['+']
    else if noEscapeNeeded c then [c]
    else (utf8Bytes c).flatMap (fun b => ['%', upperHexDigit (b / 16), upperHexDigit (b % 16)]))

/-- Bytewise lexicographic ordering on strings, as `sort.Strings` compares. -/
def strLe : List Char → List Char → Bool
  | [], _ => true
  | _ :: _, [] => false
  | x :: xs, y :: ys => if x = y then strLe xs ys else decide (x < y)

/-- Insert a key into a `strLe`-sorted list (insertion sort step). -/
def insertSorted (k : List Char) : List (List Char) → List (List Char)
  | [] => [k]
  | x :: xs => if strLe k x then k :: x :: xs else x :: insertSorted k xs

/-- Sort the key list, as `sort.Strings` does in `Values.Encode`; on the
pairwise-distinct keys of a map every correct sort yields the same list. -/
def sortKeys (l : List (List Char)) : List (List Char) := l.foldr insertSorted []

/-- Model of `url.Values.Encode`: keys sorted, each `key=value` pair escaped
and joined with `&`. -/
def encodeValues (vs : Values) : List Char :=
  ['&'].intercalate
    ((sortKeys (vs.map Prod.fst)).flatMap
      (fun k => (getVals vs k).map (fun v => queryEscape k ++ '=' :: queryEscape v)))

/-- The merge loop of `Route.ServeHTTP`: for each extracted key,
`params[key] = append(params[key], values...)`. -/
def mergeValues (params extracted : Values) : Values :=
  extracted.foldl (fun acc kv => setVals acc kv.1 (getVals acc kv.1 ++ kv.2)) params

/-- Model of `http.Request`: the fields the router reads or writes, plus one
opaque field standing for everything else in the request (headers, body,
protocol data), which the router never touches. -/
structure Request where
  method : List Char
  urlHost : List Char
  urlPath : List Char
  rawQuery : List Char
  otherFields : Nat
deriving DecidableEq, Repr

/-- Model of `Route.ServeHTTP` up to the handler call: parse the query, merge
the extracted path parameters into it, re-encode it into `RawQuery`, and hand
the mutated request to the handler.  `none` models the panic of
`extractParams` (propagated before any mutation). -/
def Route.serve (route : Route) (req : Request) : Option Request :=
  match route.extractParams req.urlPath with
  | none => none
  | some extracted =>
      some { req with rawQuery := encodeValues (mergeValues (parseQuery req.rawQuery) extracted) }

/-- Model of the `Router` struct: the route table (method name to registered
routes, in registration order), the optional host restriction, and an opaque
reference standing for the fallback handler. -/
structure Router where
  routes : List Char → List Route
  host : List Char
  notFoundRef : Nat

/-- Model of `NewRouter`: empty table, no host restriction, default fallback. -/
def NewRouter : Router :=
  { routes := fun _ => [], host := [], notFoundRef := 0 }

/-- Model of `Router.AppendRoute`: append a route to one method's bucket. -/
def Router.AppendRoute (router : Router) (method : List Char) (route : Route) : Router :=
  { router with
    routes := fun m => if m = method then router.routes m ++ [route] else router.routes m }

/-- Model of `Router.Host`. -/
def Router.setHost (router : Router) (host : List Char) : Router :=
  { router with host := host }

/-- Model of `Router.MatchHost`: empty restriction matches anything, otherwise
the restriction must equal `strings.Split(host, ":")[0]`. -/
def Router.MatchHost (router : Router) (host : List Char) : Bool :=
  router.host = [] || router.host = (host.splitOn ':').headI

/-- The synthetic method key of the any-method tier. -/
def anyMethod : List Char := ("ANY").toList

/-- Outcome of one dispatch pass: either a selected route was invoked (with
the request it passed on to its handler, or `none` for a panic during
parameter extraction), or the fallback handler was invoked with the given
request. -/
inductive Dispatch where
  | handled (route : Route) (result : Option Request)
  | fallback (req : Request)
deriving DecidableEq, Repr

/-- Model of `Router.ServeHTTP`: host gate, then first-match scan over the
method bucket followed by the `"ANY"` bucket, else the fallback handler. -/
def Router.serveHTTP (router : Router) (req : Request) : Dispatch :=
  if router.MatchHost req.urlHost then
    match (router.routes req.method ++ router.routes anyMethod).find?
        (fun r => r.Match req.urlPath) with
    | some r => Dispatch.handled r (r.serve req)
    | none => Dispatch.fallback req
  else Dispatch.fallback req

/-- An HTTP response as status code and body text. -/
structure Response where
  status : Nat
  body : List Char
deriving DecidableEq, Repr

/-- Model of `http.Error(w, msg, code)` as used by the default handler: it
writes the status code and the message followed by a newline (behaviour the
repository's own tests assert: status 404, body `"Not Found\n"`). -/
def httpError (msg : List Char) (code : Nat) : Response :=
  { status := code, body := msg ++ ['\n'] }

/-- The default `notFoundHandler` of src/router.go. -/
def notFoundResponse : Response := httpError (("Not Found").toList) 404

/-! Concrete routes, routers and requests used by witnesses and
counterexamples. -/

/-- A GET request for path `/a` with no query and empty target host. -/
def sampleReq : Request :=
  { method := chars ("GET"), urlHost := [], urlPath := chars ("/a"), rawQuery := [],
    otherFields := 0 }

/-- The route `NewRoute("/a", …)` compiles to. -/
def routeSlashA : Route :=
  { matcher := Matcher.anchored [RElem.lit '/', RElem.lit 'a'], keys := [], handler := 2 }

/-- The route `NewRoute("/b", …)` compiles to. -/
def routeSlashB : Route :=
  { matcher := Matcher.anchored [RElem.lit '/', RElem.lit 'b'], keys := [], handler := 1 }

/-- A router with GET routes `/b` then `/a`, registered in that order. -/
def sampleRouter : Router :=
  (NewRouter.AppendRoute (chars ("GET")) routeSlashB).AppendRoute (chars ("GET")) routeSlashA

/-- The route `NewRoute("/a/:b", …)` compiles to. -/
def routeAB : Route :=
  { matcher := Matcher.anchored [RElem.lit '/', RElem.lit 'a', RElem.lit '/', RElem.capture],
    keys := [chars ("b")], handler := 0 }

/-- A GET request for `/a/b?b=c` (the repository's query-extension test). -/
def mergeReq : Request :=
  { method := chars ("GET"), urlHost := [], urlPath := chars ("/a/b"),
    rawQuery := chars ("b=c"), otherFields := 0 }

/-- A GET request whose raw query `c=3&b=2` is not in canonical (sorted) form. -/
def canonReq : Request :=
  { method := chars ("GET"), urlHost := [], urlPath := chars ("/a"),
    rawQuery := chars ("c=3&b=2"), otherFields := 0 }

/-- The route `NewRoute("/:a", …)` compiles to. -/
def slashPlaceholderRoute : Route :=
  { matcher := Matcher.anchored [RElem.lit '/', RElem.capture], keys := [chars ("a")],
    handler := 0 }

/-- The route `NewRoute("/:", …)` compiles to: the lone `:` is literal text. -/
def emptyColonRoute : Route :=
  { matcher := Matcher.anchored [RElem.lit '/', RElem.lit ':'], keys := [], handler := 0 }

/-- The route `NewRoute("/:a:b", …)` compiles to: two capture groups (both
placeholders replaced) but a single key (only the first submatch recorded). -/
def doublePlaceholderRoute : Route :=
  { matcher := Matcher.anchored [RElem.lit '/', RElem.capture, RElem.capture],
    keys := [chars ("a")], handler := 0 }

/-- The route `NewRoute("/a.b", …)` compiles to: the unescaped `.` becomes the
regex any-character wildcard. -/
def dotRoute : Route :=
  { matcher := Matcher.anchored [RElem.lit '/', RElem.lit 'a', RElem.dot, RElem.lit 'b'],
    keys := [], handler := 0 }

/-! Lemmas about `getVals`, `setVals` and `mergeValues`. -/

theorem getVals_setVals_self (vs : Values) (k : List Char) (nv : List (List Char)) :
    getVals (setVals vs k nv) k = nv := by
  induction vs with
  | nil => simp [setVals, getVals]
  | cons kv rest ih =>
      by_cases h : kv.1 = k
      · simp [setVals, h, getVals]
      · simp [setVals, h, getVals, ih]

theorem getVals_setVals_ne (vs : Values) (k k2 : List Char) (nv : List (List Char))
    (h : k2 ≠ k) : getVals (setVals vs k nv) k2 = getVals vs k2 := by
  induction vs with
  | nil => simp [setVals, getVals, Ne.symm h]
  | cons kv rest ih =>
      by_cases h1 : kv.1 = k
      · have h2 : kv.1 ≠ k2 := by rw [h1]; exact Ne.symm h
        simp [setVals, h1, getVals, Ne.symm h, h2]
      · by_cases h2 : kv.1 = k2
        · simp [setVals, h1, getVals, h2, h]
        · simp [setVals, h1, getVals, h2, h, ih]

theorem getVals_eq_nil_of_not_mem (vs : Values) (k : List Char)
    (h : k ∉ vs.map Prod.fst) : getVals vs k = [] := by
  induction vs with
  | nil => rfl
  | cons kv rest ih =>
      simp only [List.map_cons, List.mem_cons, not_or] at h
      simp [getVals, Ne.symm h.1, ih h.2]

/-- The `Route.ServeHTTP` merge loop appends each extracted key's values after
the pre-existing values of that key and touches no other key. -/
theorem getVals_mergeValues (params extracted : Values) (k : List Char)
    (hk : (extracted.map Prod.fst).Nodup) :
    getVals (mergeValues params extracted) k = getVals params k ++ getVals extracted k := by
  induction extracted generalizing params with
  | nil => simp [mergeValues, getVals]
  | cons kv rest ih =>
      obtain ⟨k0, vs0⟩ := kv
      simp only [List.map_cons, List.nodup_cons] at hk
      have hstep : mergeValues params ((k0, vs0) :: rest)
          = mergeValues (setVals params k0 (getVals params k0 ++ vs0)) rest := rfl
      rw [hstep, ih _ hk.2]
      by_cases h : k = k0
      · subst h
        rw [getVals_setVals_self, getVals_eq_nil_of_not_mem rest k hk.1]
        simp [getVals, List.append_assoc]
      · rw [getVals_setVals_ne _ _ _ _ h]
        simp [getVals, Ne.symm h]

/-! The first-match scan. -/

theorem find?_eq_of_first {α : Type} (p : α → Bool) (l : List α) (i : Nat) (hi : i < l.length)
    (hp : p (l.get ⟨i, hi⟩) = true)
    (hfirst : ∀ j (hj : j < i), p (l.get ⟨j, Nat.lt_trans hj hi⟩) = false) :
    l.find? p = some (l.get ⟨i, hi⟩) := by
  induction l generalizing i with
  | nil => exact absurd hi (by simp)
  | cons a as ih =>
      cases i with
      | zero => simp only [List.get] at hp ⊢; simp [List.find?_cons_of_pos _ hp]
      | succ k =>
          have h0 : p a = false := hfirst 0 (Nat.succ_pos k)
          rw [List.find?_cons_of_neg _ (by simp [h0])]
          exact ih k (Nat.lt_of_succ_lt_succ hi) hp
            (fun j hj => hfirst (j + 1) (Nat.succ_lt_succ hj))

/-! The host gate. -/

/-- `strings.Split(host, ":")[0]` is the prefix of the host before the first
colon: exactly "the host with any port suffix stripped". -/
theorem headI_splitOn_colon (host : List Char) :
    (host.splitOn ':').headI = host.takeWhile (fun c => c ≠ ':') := by
  induction host with
  | nil => rfl
  | cons c rest ih =>
      by_cases h : c = ':'
      · subst h
        simp [List.splitOn, List.splitOnP_cons, List.takeWhile]
      · rcases hsp : List.splitOnP (fun x => x == ':') rest with _ | ⟨x, xs⟩
        · exact absurd hsp (List.splitOnP_ne_nil _ rest)
        · simp only [List.splitOn, List.splitOnP_cons, beq_iff_eq, h, if_false] at ih ⊢
          rw [hsp] at ih ⊢
          simp only [List.modifyHead, List.headI] at ih ⊢
          simp [List.takeWhile, h, ih]

/-- C3: for every request passing the host gate, the selected route is the
first element, in order, of the sequence (routes of the request's exact
method, in registration order) followed by (routes of "ANY", in registration
order) whose Match on the request path is true; so among same-method routes
the first-registered match wins regardless of specificity, and a
method-specific match is preferred over an any-method match even if the
any-method route was registered earlier. -/
theorem c3_first_match_selected (router : Router) (req : Request) (i : Nat)
    (hhost : router.MatchHost req.urlHost = true)
    (hi : i < (router.routes req.method ++ router.routes anyMethod).length)
    (hmatch : ((router.routes req.method ++ router.routes anyMethod).get ⟨i, hi⟩).Match
      req.urlPath = true)
    (hfirst : ∀ j (hj : j < i),
      ((router.routes req.method ++ router.routes anyMethod).get
        ⟨j, Nat.lt_trans hj hi⟩).Match req.urlPath = false) :
    router.serveHTTP req =
      Dispatch.handled ((router.routes req.method ++ router.routes anyMethod).get ⟨i, hi⟩)
        (((router.routes req.method ++ router.routes anyMethod).get ⟨i, hi⟩).serve req) := by
  have hfind := find?_eq_of_first (fun r => r.Match req.urlPath) _ i hi hmatch hfirst
  simp [Router.serveHTTP, hhost, hfind]

/-- Witness for C3: in a router with GET `/b` then GET `/a`, a GET request for
`/a` is dispatched to the `/a` route, the first matching one (index 1). -/
theorem c3_witness :
    sampleRouter.serveHTTP sampleReq
      = Dispatch.handled routeSlashA (routeSlashA.serve sampleReq) :=
  c3_first_match_selected sampleRouter sampleReq 1 (by decide) (by decide) (by decide)
    (by decide)

/-- C4: on dispatch, each extracted parameter's values are appended after (not
replacing) the pre-existing query values of the same key, preserving order;
merging extracted `b=b` into existing query `b=c` yields `b=c&b=b`. -/
theorem c4_extracted_params_appended (params extracted : Values) (k : List Char)
    (hk : (extracted.map Prod.fst).Nodup) :
    getVals (mergeValues params extracted) k = getVals params k ++ getVals extracted k ∧
    mkRoute (chars ("/a/:b")) 0 = some routeAB ∧
    routeAB.serve mergeReq = some { mergeReq with rawQuery := chars ("b=c&b=b") } :=
  ⟨getVals_mergeValues params extracted k hk, by decide, by decide⟩

/-- Witness for C4 at the concrete merge of `b=b` into `b=c`. -/
theorem c4_witness :
    getVals (mergeValues [(chars ("b"), [chars ("c")])] [(chars ("b"), [chars ("b")])])
        (chars ("b"))
      = getVals [(chars ("b"), [chars ("c")])] (chars ("b"))
        ++ getVals [(chars ("b"), [chars ("b")])] (chars ("b")) ∧
    mkRoute (chars ("/a/:b")) 0 = some routeAB ∧
    routeAB.serve mergeReq = some { mergeReq with rawQuery := chars ("b=c&b=b") } :=
  c4_extracted_params_appended [(chars ("b"), [chars ("c")])]
    [(chars ("b"), [chars ("b")])] (chars ("b")) (by decide)

/-- C5: a non-empty host restriction passes a request exactly when it equals
the request's target host with any port suffix stripped; `example.com`
accepts `example.com:8080` and rejects the empty host, which is sent to the
fallback handler; an empty restriction accepts every host. -/
theorem c5_host_gate (restriction host : List Char) :
    (restriction ≠ [] →
      ((NewRouter.setHost restriction).MatchHost host = true ↔
        restriction = host.takeWhile (fun c => c ≠ ':'))) ∧
    (NewRouter.setHost []).MatchHost host = true ∧
    (NewRouter.setHost (chars ("example.com"))).MatchHost (chars ("example.com:8080"))
      = true ∧
    (NewRouter.setHost (chars ("example.com"))).MatchHost [] = false ∧
    (∀ route : Route,
      ((NewRouter.setHost (chars ("example.com"))).AppendRoute (chars ("GET")) route).serveHTTP
        sampleReq = Dispatch.fallback sampleReq) := by
  refine ⟨?_, ?_, by decide, by decide, ?_⟩
  · intro hne
    simp [Router.MatchHost, NewRouter, Router.setHost, headI_splitOn_colon, hne]
  · simp [Router.MatchHost, NewRouter, Router.setHost]
  · intro route
    rfl

/-- C6: whenever no route matches (in particular for a router with no routes,
or on host-gate failure) the fallback handler receives the unmodified
request; the default fallback responds 404 with body exactly "Not Found"
followed by a newline. -/
theorem c6_fallback_unmodified (router : Router) (req : Request)
    (hmiss : router.MatchHost req.urlHost = false ∨
      (router.routes req.method ++ router.routes anyMethod).find?
        (fun r => r.Match req.urlPath) = none) :
    router.serveHTTP req = Dispatch.fallback req ∧
    NewRouter.serveHTTP req = Dispatch.fallback req ∧
    notFoundResponse = { status := 404, body := chars ("Not Found") ++ ['\n'] } := by
  refine ⟨?_, ?_, rfl⟩
  · rcases hmiss with hm | hf
    · simp [Router.serveHTTP, hm]
    · by_cases hh : router.MatchHost req.urlHost
      · simp [Router.serveHTTP, hh, hf]
      · simp [Router.serveHTTP, hh]
  · simp [Router.serveHTTP, NewRouter, Router.MatchHost]

/-- Witness for C6: the empty router sends a GET `/a` request, unmodified, to
the fallback. -/
theorem c6_witness :
    NewRouter.serveHTTP sampleReq = Dispatch.fallback sampleReq ∧
    NewRouter.serveHTTP sampleReq = Dispatch.fallback sampleReq ∧
    notFoundResponse = { status := 404, body := chars ("Not Found") ++ ['\n'] } :=
  c6_fallback_unmodified NewRouter sampleReq (Or.inr (by decide))

/-- C10: dispatching a matched route mutates only the request's raw query,
re-encoding the merged parameters canonically (keys sorted, values escaped);
every other request field is unchanged, and even a route with zero
placeholders hands the handler the re-encoded query (here `c=3&b=2` becomes
`b=2&c=3`), not the original raw text. -/
theorem c10_dispatch_touches_only_rawquery (route : Route) (req req2 : Request)
    (h : route.serve req = some req2) :
    req2.method = req.method ∧ req2.urlHost = req.urlHost ∧ req2.urlPath = req.urlPath ∧
    req2.otherFields = req.otherFields ∧
    (∃ extracted, route.extractParams req.urlPath = some extracted ∧
      req2.rawQuery = encodeValues (mergeValues (parseQuery req.rawQuery) extracted)) ∧
    (NewEmptyRoute 0).serve canonReq = some { canonReq with rawQuery := chars ("b=2&c=3") } := by
  rcases he : route.extractParams req.urlPath with _ | extracted
  · rw [Route.serve, he] at h
    exact absurd h (by simp)
  · rw [Route.serve, he] at h
    simp only [Option.some_inj] at h
    subst h
    exact ⟨rfl, rfl, rfl, rfl, ⟨extracted, rfl, rfl⟩, by decide⟩

/-- Witness for C10: the zero-placeholder catch-all route on the request with
raw query `c=3&b=2`. -/
theorem c10_witness :
    ({ canonReq with rawQuery := chars ("b=2&c=3") } : Request).method = canonReq.method ∧
    ({ canonReq with rawQuery := chars ("b=2&c=3") } : Request).urlHost = canonReq.urlHost ∧
    ({ canonReq with rawQuery := chars ("b=2&c=3") } : Request).urlPath = canonReq.urlPath ∧
    ({ canonReq with rawQuery := chars ("b=2&c=3") } : Request).otherFields
      = canonReq.otherFields ∧
    (∃ extracted, (NewEmptyRoute 0).extractParams canonReq.urlPath = some extracted ∧
      ({ canonReq with rawQuery := chars ("b=2&c=3") } : Request).rawQuery
        = encodeValues (mergeValues (parseQuery canonReq.rawQuery) extracted)) ∧
    (NewEmptyRoute 0).serve canonReq = some { canonReq with rawQuery := chars ("b=2&c=3") } :=
  c10_dispatch_touches_only_rawquery (NewEmptyRoute 0) canonReq
    { canonReq with rawQuery := chars ("b=2&c=3") } (by decide)

/-! Literal matching: a list of literal elements matches exactly itself. -/

theorem reMatch_map_lit (s p : List Char) :
    reMatch (s.map RElem.lit) p = if p = s then some [] else none := by
  induction s generalizing p with
  | nil =>
      cases p with
      | nil => simp [reMatch]
      | cons x xs => simp [reMatch]
  | cons c cs ih =>
      cases p with
      | nil => simp [reMatch]
      | cons x xs =>
          by_cases hx : x = c
          · subst hx
            simp [reMatch, ih]
          · simp [reMatch, hx]

/-! The capturing wildcard at the end of a pattern consumes the whole rest of
the input exactly when that rest is non-empty and entirely `capOk`. -/

theorem takeWhile_length_eq_iff (q : Char → Bool) (l : List Char) :
    (l.takeWhile q).length = l.length ↔ l.all q = true := by
  induction l with
  | nil => simp
  | cons x xs ih =>
      by_cases hx : q x
      · simp [List.takeWhile_cons, hx, ih]
      · have hx2 : q x = false := by simpa using hx
        simp only [List.takeWhile_cons, hx2, Bool.false_eq_true, if_false, List.length_nil,
          List.length_cons, List.all_cons, Bool.false_and]
        exact iff_of_false (by omega) (by simp)

theorem tryCapture_trailing (xs : List Char) (n : Nat) (hn : n ≤ xs.length) :
    tryCapture (fun ys => reMatch [] ys) xs n
      = if n = xs.length ∧ 1 ≤ n then some [xs] else none := by
  induction n with
  | zero => simp [tryCapture]
  | succ k ih =>
      have hunfold : tryCapture (fun ys => reMatch [] ys) xs (k + 1)
          = match reMatch [] (xs.drop (k + 1)) with
            | some gs => some (xs.take (k + 1) :: gs)
            | none => tryCapture (fun ys => reMatch [] ys) xs k := rfl
      by_cases h : xs.length = k + 1
      · have hdrop : xs.drop (k + 1) = [] := List.drop_eq_nil_of_le (by omega)
        have htake : xs.take (k + 1) = xs := List.take_of_length_le (by omega)
        rw [hunfold, hdrop]
        simp [reMatch, htake, h]
      · have hdrop : xs.drop (k + 1) ≠ [] := by
          intro hd
          have hlen := congrArg List.length hd
          simp only [List.length_drop, List.length_nil] at hlen
          omega
        have hrm : reMatch [] (xs.drop (k + 1)) = none := by
          simp [reMatch, List.isEmpty_iff, hdrop]
        rw [hunfold, hrm]
        show tryCapture (fun ys => reMatch [] ys) xs k = _
        rw [ih (by omega)]
        have hne : ¬(k = xs.length ∧ 1 ≤ k) := by
          rintro ⟨rfl, _⟩
          omega
        have hne2 : k + 1 ≠ xs.length := fun h2 => h h2.symm
        simp [hne, hne2]

/-- C8: the route compiled from `/:a` matches exactly the paths `/` followed
by a non-empty string free of `/`, `#` and `?` (the placeholder capture
matches one or more characters excluding those three, so it never spans a
segment boundary), and does not match `/` itself. -/
theorem c8_placeholder_matches_one_segment (p : List Char) :
    mkRoute (chars ("/:a")) 0 = some slashPlaceholderRoute ∧
    (slashPlaceholderRoute.Match p = true ↔
      ∃ s, p = '/' :: s ∧ s ≠ [] ∧ s.all capOk = true) ∧
    slashPlaceholderRoute.Match (chars ("/")) = false := by
  refine ⟨by decide, ?_, by decide⟩
  cases p with
  | nil =>
      simp [Route.Match, slashPlaceholderRoute, Matcher.subMatch, reMatch]
  | cons x xs =>
      by_cases hx : x = '/'
      · subst hx
        rw [show slashPlaceholderRoute.Match ('/' :: xs)
            = (tryCapture (fun ys => reMatch [] ys) xs (xs.takeWhile capOk).length).isSome
          from rfl]
        rw [tryCapture_trailing xs _ (List.takeWhile_prefix capOk).length_le]
        rcases Decidable.em ((xs.takeWhile capOk).length = xs.length
            ∧ 1 ≤ (xs.takeWhile capOk).length) with hc | hc
        · rw [if_pos hc]
          simp only [Option.isSome_some, true_iff]
          refine ⟨xs, rfl, ?_, (takeWhile_length_eq_iff capOk xs).mp hc.1⟩
          intro h0
          rw [h0] at hc
          simp at hc
        · rw [if_neg hc]
          simp only [Option.isSome_none, Bool.false_eq_true, false_iff, not_exists]
          rintro s ⟨hs, hsne, hsall⟩
          have hsx : xs = s := by
            injection hs
          subst hsx
          have hlen : (xs.takeWhile capOk).length = xs.length :=
            (takeWhile_length_eq_iff capOk xs).mpr hsall
          refine hc ⟨hlen, ?_⟩
          rw [hlen]
          rcases xs with _ | ⟨y, ys⟩
          · exact absurd rfl hsne
          · simp
      · have hnone : slashPlaceholderRoute.Match (x :: xs) = false := by
          simp [Route.Match, slashPlaceholderRoute, Matcher.subMatch, reMatch, hx]
        rw [hnone]
        simp only [Bool.false_eq_true, false_iff, not_exists]
        rintro s ⟨hs, _, _⟩
        exact hx (by injection hs)

/-! Parsing the regex sources that `compilePattern` produces from patterns of
plain characters. -/

theorem plain_char_facts (c : Char) (h : isPlainChar c = true) :
    c ≠ '\\' ∧ c ≠ '(' ∧ c ≠ '.' ∧ regexMetaChars.contains c = false := by
  have h4 : regexMetaChars.contains c = false := by
    simpa [isPlainChar] using h
  refine ⟨?_, ?_, ?_, h4⟩ <;> (rintro rfl; exact absurd h4 (by decide))

theorem parseRegexElems_plain_cons (c : Char) (rest : List Char)
    (h : isPlainChar c = true) :
    parseRegexElems (c :: rest) = (parseRegexElems rest).map (fun es => RElem.lit c :: es) := by
  obtain ⟨h1, h2, h3, h4⟩ := plain_char_facts c h
  rw [parseRegexElems, if_neg (by simpa using h4)]
  all_goals simp [h1, h2, h3]

theorem parseRegexElems_plain_append (s t : List Char)
    (hs : ∀ c ∈ s, isPlainChar c = true) :
    parseRegexElems (s ++ t)
      = (parseRegexElems t).map (fun es => s.map RElem.lit ++ es) := by
  induction s with
  | nil =>
      simp only [List.nil_append, List.map_nil, List.nil_append]
      cases parseRegexElems t <;> simp
  | cons c cs ih =>
      rw [List.cons_append, parseRegexElems_plain_cons c _ (hs c (by simp)),
        ih (fun d hd => hs d (by simp [hd]))]
      cases parseRegexElems t <;> simp

theorem parseRegexElems_sep (t : List Char) :
    parseRegexElems ('\\' :: '/' :: t)
      = (parseRegexElems t).map (fun es => RElem.lit '/' :: es) := rfl

theorem intercalate_nil_pieces (sep : List Char) :
    sep.intercalate ([] : List (List Char)) = [] := rfl

theorem intercalate_single (sep p : List Char) : sep.intercalate [p] = p := by
  simp [List.intercalate]

theorem intercalate_cons_cons (sep p q : List Char) (rest : List (List Char)) :
    sep.intercalate (p :: q :: rest) = p ++ sep ++ sep.intercalate (q :: rest) := by
  simp [List.intercalate, List.intersperse_cons_cons, List.append_assoc]

theorem mem_intercalate {c : Char} {piece : List Char} {pieces : List (List Char)}
    (sep : List Char) (hp : piece ∈ pieces) (hc : c ∈ piece) :
    c ∈ sep.intercalate pieces := by
  induction pieces with
  | nil => exact absurd hp (by simp)
  | cons p rest ih =>
      rcases rest with _ | ⟨q, rest2⟩
      · rw [List.mem_singleton] at hp
        subst hp
        rwa [intercalate_single]
      · rw [intercalate_cons_cons]
        rcases List.mem_cons.mp hp with rfl | hp2
        · exact List.mem_append_left _ (List.mem_append_left _ hc)
        · exact List.mem_append_right _ (ih hp2)

theorem parseRegexElems_intercalate (pieces : List (List Char))
    (h : ∀ piece ∈ pieces, ∀ c ∈ piece, isPlainChar c = true) :
    parseRegexElems (['\\', '/'].intercalate pieces)
      = some ((['/'].intercalate pieces).map RElem.lit) := by
  induction pieces with
  | nil => rfl
  | cons p rest ih =>
      rcases rest with _ | ⟨q, rest2⟩
      · rw [intercalate_single, intercalate_single, ← List.append_nil p]
        rw [parseRegexElems_plain_append p [] (fun c hc => h p (by simp) c (by simpa using hc))]
        simp [parseRegexElems]
      · rw [intercalate_cons_cons, intercalate_cons_cons, List.append_assoc]
        rw [parseRegexElems_plain_append p _ (fun c hc => h p (by simp) c hc)]
        rw [show (['\\', '/'] ++ ['\\', '/'].intercalate (q :: rest2))
            = '\\' :: '/' :: ['\\', '/'].intercalate (q :: rest2) from rfl]
        rw [parseRegexElems_sep, ih (fun piece hpc => h piece (by simp [hpc]))]
        simp [List.append_assoc]

theorem flatten_map_nil (l : List (List Char)) :
    (l.map (fun _ => ([] : List (List Char)))).flatten = [] := by
  induction l <;> simp [*]

/-- A pattern none of whose segments contains a placeholder compiles to its
own text rejoined with `\/`, anchored, with an empty key list. -/
theorem compilePattern_no_placeholder (P : List Char)
    (h : ∀ seg ∈ P.splitOn '/', findPlaceholder seg = none) :
    compilePattern P =
      { regexSource := ('^' :: ['\\', '/'].intercalate (P.splitOn '/')) ++ ['$'],
        keys := [] } := by
  have hmap : (P.splitOn '/').map compileSegment
      = (P.splitOn '/').map (fun seg => (seg, ([] : List (List Char)))) := by
    apply List.map_congr_left
    intro seg hseg
    simp [compileSegment, h seg hseg]
  simp [compilePattern, hmap, List.map_map, Function.comp_def, flatten_map_nil]

theorem parseAnchored_concat (mid : List Char) :
    parseAnchored (('^' :: mid) ++ ['$']) = parseRegexElems mid := by
  simp [parseAnchored, List.getLast?_concat, List.dropLast_concat]

/-- C1 (amended): for a pattern without placeholder segments whose characters
are all regex-plain, the compiled route matches a path exactly when the path
equals the pattern character for character. -/
theorem c1_literal_pattern_exact_match (P p : List Char)
    (hplain : ∀ c ∈ P, isPlainChar c = true)
    (hnoph : ∀ seg ∈ P.splitOn '/', findPlaceholder seg = none) :
    mkRoute P 0
      = some { matcher := Matcher.anchored (P.map RElem.lit), keys := [], handler := 0 } ∧
    (Route.Match { matcher := Matcher.anchored (P.map RElem.lit), keys := [], handler := 0 } p
        = true ↔ p = P) := by
  have hpieces : ∀ piece ∈ P.splitOn '/', ∀ c ∈ piece, isPlainChar c = true := by
    intro piece hpiece c hc
    apply hplain
    have hmem := mem_intercalate ['/'] hpiece hc
    rwa [List.intercalate_splitOn] at hmem
  constructor
  · rw [mkRoute, compilePattern_no_placeholder P hnoph]
    simp only [parseAnchored_concat]
    rw [parseRegexElems_intercalate _ hpieces, List.intercalate_splitOn]
    rfl
  · show (reMatch (P.map RElem.lit) p).isSome = true ↔ p = P
    rw [reMatch_map_lit]
    by_cases hp : p = P <;> simp [hp]

/-- Witness for C1 at the literal pattern `/hello`. -/
theorem c1_witness :
    mkRoute (chars ("/hello")) 0
      = some { matcher := Matcher.anchored ((chars ("/hello")).map RElem.lit), keys := [],
               handler := 0 } ∧
    (Route.Match
        { matcher := Matcher.anchored ((chars ("/hello")).map RElem.lit), keys := [],
          handler := 0 }
        (chars ("/hello")) = true ↔ chars ("/hello") = chars ("/hello")) :=
  c1_literal_pattern_exact_match (chars ("/hello")) (chars ("/hello")) (by decide) (by decide)

/-- Counterexample to C1 as stated: `/a.b` has no placeholder, yet its route
matches the different path `/axb`, because the unescaped `.` is a regex
wildcard. -/
theorem c1_counterexample :
    mkRoute (chars ("/a.b")) 0 = some dotRoute ∧
    (∀ seg ∈ (chars ("/a.b")).splitOn '/', findPlaceholder seg = none) ∧
    dotRoute.Match (chars ("/axb")) = true ∧
    ¬(chars ("/axb") = chars ("/a.b")) := by decide

/-- C7 (amended): a segment consisting of `:` alone (an empty placeholder
identifier) is not a placeholder at all: registration succeeds, no key is
recorded, and the route matches exactly the literal text `/:`; nothing fails
at registration or at request time for such a pattern. -/
theorem c7_empty_placeholder_is_literal (p : List Char) :
    mkRoute (chars ("/:")) 0 = some emptyColonRoute ∧
    emptyColonRoute.keys = [] ∧
    (emptyColonRoute.Match p = true ↔ p = chars ("/:")) := by
  refine ⟨by decide, by decide, ?_⟩
  show (reMatch ((chars ("/:")).map RElem.lit) p).isSome = true ↔ p = chars ("/:")
  rw [reMatch_map_lit]
  by_cases hp : p = chars ("/:") <;> simp [hp]

/-- Counterexample to C7 as stated: registration of the malformed pattern `/:`
does not fail; it yields a working route with a usable (literal) matcher. -/
theorem c7_counterexample :
    mkRoute (chars ("/:")) 0 = some emptyColonRoute ∧
    emptyColonRoute.Match (chars ("/:")) = true ∧
    emptyColonRoute.keys = [] := by decide

/-- C2 fails on the code: the pattern `/:a:b` contains two placeholder
occurrences, and its compiled matcher has two capture groups (both occurrences
are replaced by `ReplaceAllString`), but the key list records only the first
identifier (`FindStringSubmatch` returns the first match), so its length is 1,
not 2: the name list is shorter than the capture-group list. -/
theorem c2_key_group_mismatch :
    patternPlaceholderCount (chars ("/:a:b")) = 2 ∧
    mkRoute (chars ("/:a:b")) 0 = some doublePlaceholderRoute ∧
    doublePlaceholderRoute.keys = [chars ("a")] ∧
    doublePlaceholderRoute.matcher.subMatch (chars ("/xy"))
      = some [chars ("x"), chars ("y")] := by decide

/-- C9 fails on the code: the route compiled from `/:a:b` matches `/xy`, and
under that precondition `extractParams` still fails (the second capture indexes
`Keys[1]` in a one-element key list: an index-out-of-range panic in Go). -/
theorem c9_extract_params_panics :
    mkRoute (chars ("/:a:b")) 0 = some doublePlaceholderRoute ∧
    doublePlaceholderRoute.Match (chars ("/xy")) = true ∧
    doublePlaceholderRoute.extractParams (chars ("/xy")) = none := by decide

end GoRouter
